import Mathlib

/-!
Verification of the planning-poker session core: a shallow embedding of the
session registry (`SessionManager.ts`), the realtime channel (`useWebSocket`)
and the voting-result consensus predicate (`VotingResult.vue`), together with
theorems settling the specification claims about them.

JavaScript `Map`s are modelled as insertion-ordered association lists,
JavaScript strings as Lean `String`s with explicitly embedded ECMAScript
primitives (`toUpperCase`, `trim` on ASCII data), timestamps as `Int`
milliseconds, and the random source of the join-code generator as an explicit
list of draws.
-/

namespace PlanningPoker

/-! ### ECMAScript string primitives (ASCII fragment) -/

/-- Embeds the ECMAScript whitespace test used by `String.prototype.trim`
(restricted to the ASCII whitespace characters). -/
def jsIsWhitespace (c : Char) : Bool :=
  c = ' ' || c = '\t' || c = '\n' || c = '\x0d' || c = '\x0b' || c = '\x0c'

/-- Embeds `String.prototype.toUpperCase` on ASCII data. -/
def jsToUpperCase (s : String) : String :=
  ⟨s.data.map Char.toUpper⟩

/-- Embeds `String.prototype.trim`: drop whitespace from both ends. -/
def jsTrim (s : String) : String :=
  ⟨((s.data.dropWhile jsIsWhitespace).reverse.dropWhile jsIsWhitespace).reverse⟩

/-! ### JavaScript `Map` as an insertion-ordered association list -/

/-- Embeds `Map.prototype.get` (with `?? null` flattening): the value of the
first entry with the given key. -/
def alLookup {β : Type} : List (String × β) → String → Option β
  | [], _ => none
  | (k', v) :: rest, k => if k' = k then some v else alLookup rest k

/-- Embeds `Map.prototype.set`: replace the value in place if the key is
present, otherwise append a new entry. -/
def alSet {β : Type} : List (String × β) → String → β → List (String × β)
  | [], k, v => [(k, v)]
  | (k', v') :: rest, k, v =>
    if k' = k then (k', v) :: rest else (k', v') :: alSet rest k v

/-- Embeds `Map.prototype.delete`: remove the (first) entry with the key. -/
def alEraseKey {β : Type} : List (String × β) → String → List (String × β)
  | [], _ => []
  | (k', v') :: rest, k => if k' = k then rest else (k', v') :: alEraseKey rest k

/-- The keys of the map, in insertion order. -/
def alKeys {β : Type} (m : List (String × β)) : List String :=
  m.map Prod.fst

/-! ### Participant and Session -/

/-- Modelled from the spec: the repository's `Participant` class
(`src/app/utils/Participant.ts`) is not among the provided sources.
Fields follow spec section 3: an immutable generated `id`, display `name`,
`isObserver` fixed at join time, nullable `selectedValue`. -/
structure Participant where
  id : String
  name : String
  isObserver : Bool
  selectedValue : Option String
deriving DecidableEq, Repr

/-- Modelled from the spec: the repository's `Session` class
(`src/app/utils/Session.ts`) is not among the provided sources. Only the
fields the registry claims touch are carried: `id`, `name`, `hostId`, the
ordered `participants` collection and the `createdAt`/`updatedAt`
timestamps (integer milliseconds). -/
structure Session where
  id : String
  name : String
  hostId : String
  participants : List Participant
  createdAt : Int
  updatedAt : Int
deriving DecidableEq, Repr

/-- Modelled from the spec: `Session.addParticipant` appends unless a policy
rejects it (duplicate id); returns whether the add succeeded; refreshes
`updatedAt` (spec section 4.2). -/
def Session.addParticipant (s : Session) (p : Participant) (now : Int) :
    Session × Bool :=
  if s.participants.any (fun q => q.id = p.id) then (s, false)
  else ({ s with participants := s.participants ++ [p], updatedAt := now }, true)

/-- Modelled from the spec: `Session.removeParticipant` removes by id; returns
whether a participant was actually present and removed; refreshes
`updatedAt` (spec section 4.2). -/
def Session.removeParticipant (s : Session) (pid : String) (now : Int) :
    Session × Bool :=
  if s.participants.any (fun q => q.id = pid) then
    ({ s with participants := s.participants.filter (fun q => q.id ≠ pid),
              updatedAt := now }, true)
  else (s, false)

/-! ### Join-code constants -/

/-- Modelled from the spec: `JOIN_CODE_CHARS` is defined in
`src/app/types/poker.ts`, which is not among the provided sources. Spec
sections 3 and 6: an uppercase alphanumeric alphabet excluding the visually
ambiguous characters (no `0`/`O`, no `1`/`I`). -/
def JOIN_CODE_CHARS : String := "ABCDEFGHJKLMNPQRSTUVWXYZ23456789"

/-- Modelled from the spec: `JOIN_CODE_LENGTH` is defined in
`src/app/types/poker.ts`, which is not among the provided sources; the spec
fixes join codes at exactly 6 characters. -/
def JOIN_CODE_LENGTH : Nat := 6

/-! ### SessionManager state and operations (`src/app/utils/SessionManager.ts`) -/

/-- The cleanup configuration (`CleanupConfig` in `SessionManager.ts`). -/
structure CleanupConfig where
  checkInterval : Int
  maxInactivity : Int
  deleteWhenEmpty : Bool
deriving Repr

/-- `DEFAULT_CLEANUP_CONFIG` from `SessionManager.ts`. -/
def DEFAULT_CLEANUP_CONFIG : CleanupConfig :=
  { checkInterval := 60000, maxInactivity := 30 * 60000, deleteWhenEmpty := true }

/-- The mutable state of the `SessionManager` singleton: the two maps and
whether the cleanup interval timer is running (`cleanupIntervalId ≠ null`). -/
structure ManagerState where
  sessions : List (String × Session)
  joinCodes : List (String × String)
  cleanupActive : Bool
deriving Repr

/-- The registry state of a freshly constructed `SessionManager`. -/
def initialState : ManagerState :=
  { sessions := [], joinCodes := [], cleanupActive := false }

/-- One character of a generated code:
`JOIN_CODE_CHARS.charAt(Math.floor(Math.random() * JOIN_CODE_CHARS.length))`,
with the random draw modelled as an arbitrary natural reduced mod the
alphabet size. -/
def codeChar (r : Nat) : Char :=
  JOIN_CODE_CHARS.data.getD (r % JOIN_CODE_CHARS.data.length) 'A'

/-- The candidate code built by one pass of the generation loop from a list
of random draws (one draw per position). -/
def codeOfRands (rs : List Nat) : String :=
  ⟨(List.range JOIN_CODE_LENGTH).map (fun i => codeChar (rs.getD i 0))⟩

/-- `SessionManager.generateJoinCode`: draw a candidate; on collision with a
live code, retry recursively. The random source is the explicit list of
per-attempt draw lists; `none` means the source was exhausted (the real
recursion would keep drawing). -/
def generateJoinCode (joinCodes : List (String × String)) :
    List (List Nat) → Option String
  | [] => none
  | rs :: rest =>
    let code := codeOfRands rs
    if (alLookup joinCodes code).isSome then generateJoinCode joinCodes rest
    else some code

/-- `SessionManager.createSession`: construct the host participant and the
session, add the host, store the session, generate and reserve a join code,
and ensure the cleanup loop is running. The identifiers generated inside
`Participant`/`Session` constructors and the random draws are passed
explicitly. -/
def createSession (st : ManagerState) (name hostName hostId sessionId : String)
    (now : Int) (attempts : List (List Nat)) :
    Option (ManagerState × Session × Participant × String) :=
  let host : Participant :=
    { id := hostId, name := hostName, isObserver := false, selectedValue := none }
  let session0 : Session :=
    { id := sessionId, name := name, hostId := hostId, participants := [],
      createdAt := now, updatedAt := now }
  let session := (session0.addParticipant host now).1
  match generateJoinCode st.joinCodes attempts with
  | none => none
  | some joinCode =>
    some ({ sessions := alSet st.sessions session.id session,
            joinCodes := alSet st.joinCodes joinCode session.id,
            cleanupActive := true },
          session, host, joinCode)

/-- `SessionManager.getSessionByJoinCode`: normalize the input by uppercasing
and trimming, resolve the code to a session id (the JS falsy check
`if (!sessionId)` also rejects the empty string), then resolve the id. -/
def getSessionByJoinCode (st : ManagerState) (joinCode : String) :
    Option Session :=
  let normalizedCode := jsTrim (jsToUpperCase joinCode)
  match alLookup st.joinCodes normalizedCode with
  | none => none
  | some sessionId =>
    if sessionId = "" then none
    else alLookup st.sessions sessionId

/-- `SessionManager.getSessionById`. -/
def getSessionById (st : ManagerState) (sessionId : String) : Option Session :=
  alLookup st.sessions sessionId

/-- `SessionManager.getJoinCode`: linear scan of `joinCodes` for the first
entry whose value is the session id. -/
def getJoinCode (st : ManagerState) (sessionId : String) : Option String :=
  (st.joinCodes.find? (fun p => p.2 = sessionId)).map Prod.fst

/-- The join-code removal loop inside `deleteSession`: delete the first code
mapping to the session id, then `break`. -/
def eraseFirstCodeFor : List (String × String) → String → List (String × String)
  | [], _ => []
  | (code, id) :: rest, sessionId =>
    if id = sessionId then rest else (code, id) :: eraseFirstCodeFor rest sessionId

/-- `SessionManager.deleteSession`: remove the join code and the session;
stop the cleanup interval when no sessions remain. -/
def deleteSession (st : ManagerState) (sessionId : String) :
    ManagerState × Bool :=
  match alLookup st.sessions sessionId with
  | none => (st, false)
  | some _ =>
    let joinCodes' := eraseFirstCodeFor st.joinCodes sessionId
    let sessions' := alEraseKey st.sessions sessionId
    ({ sessions := sessions', joinCodes := joinCodes',
       cleanupActive := if sessions'.length = 0 then false else st.cleanupActive },
     true)

/-- `SessionManager.cleanupIfEmpty`: delete the session iff it exists and has
no participants. -/
def cleanupIfEmpty (st : ManagerState) (sessionId : String) : ManagerState :=
  match alLookup st.sessions sessionId with
  | some session =>
    if session.participants.length = 0 then (deleteSession st sessionId).1 else st
  | none => st

/-- `SessionManager.leaveSession`: remove the participant from the session
(the in-place mutation of the shared `Session` object becomes a map update);
when removal succeeded and the delete-when-empty policy is on, delete the
session if it became empty. -/
def leaveSession (cfg : CleanupConfig) (st : ManagerState)
    (sessionId participantId : String) (now : Int) : ManagerState × Bool :=
  match alLookup st.sessions sessionId with
  | none => (st, false)
  | some session =>
    let r := session.removeParticipant participantId now
    let st1 := { st with sessions := alSet st.sessions sessionId r.1 }
    if r.2 && cfg.deleteWhenEmpty then (cleanupIfEmpty st1 sessionId, r.2)
    else (st1, r.2)

/-- The deletion condition evaluated by one sweep step for one session:
delete when configured delete-when-empty and empty, otherwise when
`now - updatedAt` strictly exceeds the max-inactivity threshold. -/
def shouldDelete (cfg : CleanupConfig) (now : Int) (session : Session) : Bool :=
  (cfg.deleteWhenEmpty && session.participants.length = 0)
    || decide (now - session.updatedAt > cfg.maxInactivity)

/-- One iteration of the `performCleanup` loop body for one session entry:
delete empty sessions (when so configured), else delete sessions whose
inactivity exceeds the threshold, else leave the state alone. -/
def cleanupStep (cfg : CleanupConfig) (now : Int) (acc : ManagerState)
    (entry : String × Session) : ManagerState :=
  if cfg.deleteWhenEmpty && entry.2.participants.length = 0 then
    (deleteSession acc entry.1).1
  else if now - entry.2.updatedAt > cfg.maxInactivity then
    (deleteSession acc entry.1).1
  else acc

/-- `SessionManager.performCleanup`: iterate over the session entries and
delete the empty (when so configured) and the inactive ones. Deletions during
the sweep only ever remove the entry currently visited, so iterating the
entry-list snapshot coincides with the live `Map` iteration of the source. -/
def performCleanup (cfg : CleanupConfig) (now : Int) (st : ManagerState) :
    ManagerState :=
  st.sessions.foldl (cleanupStep cfg now) st

/-! ### Realtime channel (`useWebSocket` in `src/app/types/index.ts`) -/

/-- The options destructured at the top of `useWebSocket` that govern
reconnection. -/
structure WebSocketOptions where
  autoReconnect : Bool
  maxReconnectAttempts : Nat
  reconnectDelay : Nat
deriving Repr

/-- The option defaults of `useWebSocket`. -/
def defaultWebSocketOptions : WebSocketOptions :=
  { autoReconnect := true, maxReconnectAttempts := 5, reconnectDelay := 1000 }

/-- The two connection-lifecycle events the reconnection claims speak about:
an unexpected close (the `onclose` handler firing outside `disconnect()`)
and a successful connect (the `onopen` handler firing). -/
inductive ChannelEvent
  | unexpectedClose
  | openSuccess
deriving DecidableEq, Repr

/-- The `onclose` handler's effect on the reconnect state: when auto-reconnect
is on and the attempt counter is below the maximum, increment the counter and
schedule a reconnect timer with delay
`reconnectDelay * 2 ^ (globalReconnectAttempts - 1)` (computed after the
increment); otherwise schedule nothing. Returns the new counter and the delay
of the scheduled timer, if any. -/
def handleClose (opts : WebSocketOptions) (attempts : Nat) : Nat × Option Nat :=
  if opts.autoReconnect ∧ attempts < opts.maxReconnectAttempts then
    (attempts + 1, some (opts.reconnectDelay * 2 ^ (attempts + 1 - 1)))
  else
    (attempts, none)

/-- The `onopen` handler's effect on the reconnect state: the counter is reset
to 0 and no reconnect timer is scheduled. -/
def handleOpen (_attempts : Nat) : Nat :=
  0

/-- One lifecycle event's effect on the attempt counter, together with the
delay of the reconnect timer it schedules (if any). -/
def stepChannel (opts : WebSocketOptions) (attempts : Nat) :
    ChannelEvent → Nat × Option Nat
  | .unexpectedClose => handleClose opts attempts
  | .openSuccess => (handleOpen attempts, none)

/-- The attempt counter after a sequence of lifecycle events. -/
def runChannel (opts : WebSocketOptions) (attempts : Nat)
    (events : List ChannelEvent) : Nat :=
  events.foldl (fun a e => (stepChannel opts a e).1) attempts

/-- `WebSocket.OPEN` readyState constant. -/
def WS_OPEN : Nat := 1

/-- The typed envelope built by `send`: `{ type, payload, timestamp }` with
`timestamp = Date.now()`. The payload is kept abstract as its serialized
form. -/
structure ClientMessage where
  type : String
  payload : String
  timestamp : Int
deriving DecidableEq, Repr

/-- The channel state `send` touches: the underlying socket's readyState
(`none` when no socket object exists) and the frames transmitted so far. -/
structure ChannelSendState where
  readyState : Option Nat
  sentFrames : List ClientMessage
deriving DecidableEq, Repr

/-- `useWebSocket.send`: when the socket is absent or not OPEN, warn and
return without transmitting (the returned flag records that the warning was
emitted); otherwise serialize and transmit one envelope with the current
time as its timestamp. -/
def send (st : ChannelSendState) (type payload : String) (now : Int) :
    ChannelSendState × Bool :=
  if st.readyState ≠ some WS_OPEN then
    (st, true)
  else
    ({ st with sentFrames :=
        st.sentFrames ++ [{ type := type, payload := payload, timestamp := now }] },
     false)

/-! ### Handler registry (`globalHandlers`, `on`, `emitEvent`) -/

/-- Embeds `Set.prototype.add`: a no-op when the element is present,
otherwise append (JS `Set` preserves insertion order). -/
def setAdd {H : Type} [DecidableEq H] (s : List H) (h : H) : List H :=
  if h ∈ s then s else s ++ [h]

/-- Embeds `Set.prototype.delete`: remove the element (present at most once
in a `Set`; `List.erase` removes the first occurrence). -/
def setDelete {H : Type} [DecidableEq H] (s : List H) (h : H) : List H :=
  s.erase h

/-- `useWebSocket.on` (named `onEvent` here because `on` is reserved in
Lean): create the handler set for the type if absent, then add the handler
to it. -/
def onEvent {H : Type} [DecidableEq H] (m : List (String × List H)) (t : String)
    (h : H) : List (String × List H) :=
  match alLookup m t with
  | none => alSet m t (setAdd [] h)
  | some s => alSet m t (setAdd s h)

/-- The unsubscribe closure returned by `on`:
`handlers.get(type)?.delete(handler)`. -/
def unsubscribe {H : Type} [DecidableEq H] (m : List (String × List H))
    (t : String) (h : H) : List (String × List H) :=
  match alLookup m t with
  | none => m
  | some s => alSet m t (setDelete s h)

/-- `useWebSocket.emitEvent`: the handlers invoked (in order, each once per
set element) for an inbound message of the given type. -/
def emitEvent {H : Type} [DecidableEq H] (m : List (String × List H))
    (t : String) : List H :=
  match alLookup m t with
  | none => []
  | some s => s

/-! ### Voting result (`src/app/components/VotingResult.vue`) -/

/-- The `voters` computed property: participants that are not observers and
have a non-null `selectedValue`. -/
def voters (participants : List Participant) : List Participant :=
  participants.filter (fun p => !p.isObserver && p.selectedValue.isSome)

/-- The `hasConsensus` computed property: false with fewer than 2 voters
(or no first voter), otherwise true iff every voter's `selectedValue` equals
the first voter's. -/
def hasConsensus (participants : List Participant) : Bool :=
  let vs := voters participants
  if vs.length < 2 then false
  else
    match vs.head? with
    | none => false
    | some firstVoter =>
      vs.all (fun p => p.selectedValue == firstVoter.selectedValue)

/-- The consensus predicate in the words of the claim under scrutiny: every
non-observer participant selected the identical non-null value, and at least
2 such voters exist. Stated for comparison against `hasConsensus`, which is
the source's definition. -/
def claimedConsensus (participants : List Participant) : Prop :=
  ∃ v : String,
    (∀ p ∈ participants, p.isObserver = false → p.selectedValue = some v) ∧
    2 ≤ (participants.filter (fun p => !p.isObserver)).length

/-! ### Invariant predicates -/

/-- A well-formed join code: exactly `JOIN_CODE_LENGTH` characters, each
drawn from `JOIN_CODE_CHARS`. -/
def goodCode (c : String) : Prop :=
  c.length = JOIN_CODE_LENGTH ∧ ∀ ch ∈ c.data, ch ∈ JOIN_CODE_CHARS.data

/-- The join-code part of the registry invariant: every stored code is
well-formed and no two live sessions share a code (the code keys are
duplicate-free). -/
def codesOk (st : ManagerState) : Prop :=
  (∀ p ∈ st.joinCodes, goodCode p.1) ∧ (alKeys st.joinCodes).Nodup

/-- The registry bijection invariant: both maps have duplicate-free keys,
every stored code maps to a live session id, and every live session id
appears under exactly one code. -/
def goodState (st : ManagerState) : Prop :=
  (alKeys st.sessions).Nodup ∧
  (alKeys st.joinCodes).Nodup ∧
  (∀ p ∈ st.joinCodes, p.2 ∈ alKeys st.sessions) ∧
  (∀ sid ∈ alKeys st.sessions, ∃! c : String, (c, sid) ∈ st.joinCodes)

/-- Well-formedness of the handler registry: each per-type handler
collection is duplicate-free (automatic for a JS `Set`). -/
def handlersWf {H : Type} [DecidableEq H] (m : List (String × List H)) : Prop :=
  ∀ p ∈ m, p.2.Nodup

/-! ### Association-list lemmas -/

theorem alLookup_alSet_self {β : Type} (m : List (String × β)) (k : String)
    (v : β) : alLookup (alSet m k v) k = some v := by
  induction m with
  | nil => simp [alSet, alLookup]
  | cons p rest ih =>
    by_cases h : p.1 = k <;> simp [alSet, alLookup, h, ih]

theorem alLookup_alSet_ne {β : Type} (m : List (String × β)) (k k' : String)
    (v : β) (hne : k ≠ k') : alLookup (alSet m k v) k' = alLookup m k' := by
  induction m with
  | nil => simp [alSet, alLookup, hne, Ne.symm hne]
  | cons p rest ih =>
    by_cases h : p.1 = k
    · simp [alSet, alLookup, h, hne, Ne.symm hne]
    · by_cases h' : p.1 = k' <;> simp [alSet, alLookup, h, h', ih, Ne.symm hne]

theorem alLookup_eq_none_iff {β : Type} (m : List (String × β)) (k : String) :
    alLookup m k = none ↔ k ∉ alKeys m := by
  induction m with
  | nil => simp [alLookup, alKeys]
  | cons p rest ih =>
    by_cases h : p.1 = k <;> simp [alLookup, alKeys, h, ih] <;> tauto

theorem alLookup_isSome_iff {β : Type} (m : List (String × β)) (k : String) :
    (alLookup m k).isSome = true ↔ k ∈ alKeys m := by
  rw [Option.isSome_iff_ne_none]
  simp [ne_eq, alLookup_eq_none_iff]

theorem alSet_eq_append {β : Type} (m : List (String × β)) (k : String) (v : β)
    (h : k ∉ alKeys m) : alSet m k v = m ++ [(k, v)] := by
  induction m with
  | nil => simp [alSet]
  | cons p rest ih =>
    simp only [alKeys, List.map_cons, List.mem_cons] at h
    push_neg at h
    have h1 : ¬p.1 = k := fun he => h.1 he.symm
    simp [alSet, h1, ih (by simpa [alKeys] using h.2)]

theorem alKeys_alSet_of_mem {β : Type} (m : List (String × β)) (k : String)
    (v : β) (h : k ∈ alKeys m) : alKeys (alSet m k v) = alKeys m := by
  induction m with
  | nil => simp [alKeys] at h
  | cons p rest ih =>
    by_cases hp : p.1 = k
    · simp [alSet, alKeys, hp]
    · have hk : k ∈ alKeys rest := by
        rcases (by simpa [alKeys] using h : k = p.1 ∨ k ∈ alKeys rest) with h1 | h1
        · exact absurd h1.symm hp
        · exact h1
      have h2 := ih hk
      simp only [alKeys] at h2
      simp [alSet, alKeys, hp, h2]

theorem alEraseKey_sublist {β : Type} (m : List (String × β)) (k : String) :
    (alEraseKey m k).Sublist m := by
  induction m with
  | nil => simp [alEraseKey]
  | cons p rest ih =>
    by_cases h : p.1 = k
    · simpa [alEraseKey, h] using List.sublist_cons_self p rest
    · simpa [alEraseKey, h] using ih.cons₂ p

theorem alEraseKey_keys_sublist {β : Type} (m : List (String × β)) (k : String) :
    (alKeys (alEraseKey m k)).Sublist (alKeys m) :=
  (alEraseKey_sublist m k).map Prod.fst

theorem not_mem_keys_alEraseKey_self {β : Type} (m : List (String × β))
    (k : String) (hnd : (alKeys m).Nodup) : k ∉ alKeys (alEraseKey m k) := by
  induction m with
  | nil => simp [alEraseKey, alKeys]
  | cons p rest ih =>
    simp only [alKeys, List.map_cons, List.nodup_cons] at hnd
    by_cases h : p.1 = k
    · subst h
      simpa [alEraseKey, alKeys] using hnd.1
    · simp only [alEraseKey, h, if_false, alKeys, List.map_cons, List.mem_cons]
      push_neg
      exact ⟨fun he => h he.symm, ih hnd.2⟩

theorem alLookup_alEraseKey_self {β : Type} (m : List (String × β))
    (k : String) (hnd : (alKeys m).Nodup) :
    alLookup (alEraseKey m k) k = none := by
  rw [alLookup_eq_none_iff]
  exact not_mem_keys_alEraseKey_self m k hnd

theorem mem_keys_alEraseKey {β : Type} (m : List (String × β)) (k k' : String)
    (hk : k' ∈ alKeys m) (hne : k' ≠ k) : k' ∈ alKeys (alEraseKey m k) := by
  induction m with
  | nil => simp [alKeys] at hk
  | cons p rest ih =>
    have hk' : k' = p.1 ∨ k' ∈ alKeys rest := by simpa [alKeys] using hk
    by_cases h : p.1 = k
    · rcases hk' with h1 | h1
      · exact absurd (h1.trans h) hne
      · simpa [alEraseKey, h, alKeys] using h1
    · rcases hk' with h1 | h1
      · simp [alEraseKey, h, alKeys, h1]
      · simp only [alEraseKey, h, if_false, alKeys, List.map_cons, List.mem_cons]
        exact Or.inr (by simpa [alKeys] using ih h1)

theorem alEraseKey_length {β : Type} (m : List (String × β)) (k : String)
    (h : (alLookup m k).isSome = true) :
    (alEraseKey m k).length + 1 = m.length := by
  induction m with
  | nil => simp [alLookup] at h
  | cons p rest ih =>
    by_cases hp : p.1 = k
    · simp [alEraseKey, hp]
    · simp only [alLookup, hp, if_false] at h
      simp [alEraseKey, hp, ih h]

/-! ### Join-code generation lemmas -/

theorem codeChar_mem (r : Nat) : codeChar r ∈ JOIN_CODE_CHARS.data := by
  have hlen : 0 < JOIN_CODE_CHARS.data.length := by decide
  have h : r % JOIN_CODE_CHARS.data.length < JOIN_CODE_CHARS.data.length :=
    Nat.mod_lt _ hlen
  unfold codeChar
  rw [List.getD_eq_getElem _ _ h]
  exact List.getElem_mem h

theorem codeOfRands_mem_chars (rs : List Nat) :
    ∀ c ∈ (codeOfRands rs).data, c ∈ JOIN_CODE_CHARS.data := by
  intro c hc
  simp only [codeOfRands, List.mem_map] at hc
  obtain ⟨i, -, hi⟩ := hc
  exact hi ▸ codeChar_mem _

theorem codeOfRands_length (rs : List Nat) :
    (codeOfRands rs).length = JOIN_CODE_LENGTH := by
  simp [codeOfRands, String.length]

theorem goodCode_codeOfRands (rs : List Nat) : goodCode (codeOfRands rs) :=
  ⟨codeOfRands_length rs, codeOfRands_mem_chars rs⟩

theorem join_code_chars_props :
    ∀ c ∈ JOIN_CODE_CHARS.data, Char.toUpper c = c ∧ jsIsWhitespace c = false := by
  decide

theorem dropWhile_eq_self_of_none {α : Type} (p : α → Bool) (l : List α)
    (h : ∀ c ∈ l, p c = false) : l.dropWhile p = l := by
  cases l with
  | nil => rfl
  | cons a rest => simp [List.dropWhile, h a (List.mem_cons_self a rest)]

theorem jsTrim_eq_self (s : String) (h : ∀ c ∈ s.data, jsIsWhitespace c = false) :
    jsTrim s = s := by
  unfold jsTrim
  rw [dropWhile_eq_self_of_none _ _ h,
    dropWhile_eq_self_of_none _ _ (fun c hc => h c (List.mem_reverse.mp hc)),
    List.reverse_reverse]

theorem jsToUpperCase_eq_self (s : String)
    (h : ∀ c ∈ s.data, Char.toUpper c = c) : jsToUpperCase s = s := by
  unfold jsToUpperCase
  rw [List.map_congr_left h]
  simp

theorem normalize_codeOfRands (rs : List Nat) :
    jsTrim (jsToUpperCase (codeOfRands rs)) = codeOfRands rs := by
  have hup : jsToUpperCase (codeOfRands rs) = codeOfRands rs :=
    jsToUpperCase_eq_self _
      (fun c hc => (join_code_chars_props c (codeOfRands_mem_chars rs c hc)).1)
  rw [hup]
  exact jsTrim_eq_self _
    (fun c hc => (join_code_chars_props c (codeOfRands_mem_chars rs c hc)).2)

theorem generateJoinCode_spec (joinCodes : List (String × String))
    (attempts : List (List Nat)) (code : String)
    (h : generateJoinCode joinCodes attempts = some code) :
    alLookup joinCodes code = none ∧ ∃ rs, code = codeOfRands rs := by
  induction attempts with
  | nil => simp [generateJoinCode] at h
  | cons rs rest ih =>
    by_cases hcol : (alLookup joinCodes (codeOfRands rs)).isSome
    · exact ih (by simpa [generateJoinCode, hcol] using h)
    · have hcode : code = codeOfRands rs := by
        simpa [generateJoinCode, hcol] using h.symm
      refine ⟨?_, rs, hcode⟩
      rw [hcode]
      exact Option.not_isSome_iff_eq_none.mp hcol

/-! ### Channel reconnection lemmas -/

theorem stepChannel_le (opts : WebSocketOptions) (a : Nat) (e : ChannelEvent)
    (h : a ≤ opts.maxReconnectAttempts) :
    (stepChannel opts a e).1 ≤ opts.maxReconnectAttempts := by
  cases e with
  | openSuccess => simpa [stepChannel, handleOpen] using Nat.zero_le _
  | unexpectedClose =>
    simp only [stepChannel, handleClose]
    split
    · next hcc => exact hcc.2
    · exact h

theorem runChannel_le (opts : WebSocketOptions) (events : List ChannelEvent)
    (a : Nat) (h : a ≤ opts.maxReconnectAttempts) :
    runChannel opts a events ≤ opts.maxReconnectAttempts := by
  induction events generalizing a with
  | nil => simpa [runChannel] using h
  | cons e rest ih =>
    simpa [runChannel, List.foldl_cons] using ih _ (stepChannel_le opts a e h)

/-- C5: with `maxReconnectAttempts = 5`, the attempt counter never exceeds 5
along any sequence of lifecycle events starting from a fresh connection; an
unexpected close at the maximum schedules no reconnect timer; every scheduled
reconnect increments the counter and is delayed by
`reconnectDelay * 2 ^ (attempt - 1)`; and a successful connect resets the
counter to 0 without scheduling. -/
theorem claim_C5 (opts : WebSocketOptions) (hmax : opts.maxReconnectAttempts = 5) :
    (∀ events : List ChannelEvent, runChannel opts 0 events ≤ 5) ∧
    (∀ a, 5 ≤ a → stepChannel opts a ChannelEvent.unexpectedClose = (a, none)) ∧
    (∀ a a' d, stepChannel opts a ChannelEvent.unexpectedClose = (a', some d) →
      a < 5 ∧ a' = a + 1 ∧ d = opts.reconnectDelay * 2 ^ (a' - 1)) ∧
    (∀ a, stepChannel opts a ChannelEvent.openSuccess = (0, none)) := by
  refine ⟨?_, ?_, ?_, ?_⟩
  · intro events
    simpa [hmax] using runChannel_le opts events 0 (Nat.zero_le _)
  · intro a ha
    have hnc : ¬(opts.autoReconnect = true ∧ a < opts.maxReconnectAttempts) := by
      rintro ⟨-, hlt⟩
      rw [hmax] at hlt
      omega
    simp [stepChannel, handleClose, hnc]
  · intro a a' d h
    by_cases hc : opts.autoReconnect = true ∧ a < opts.maxReconnectAttempts
    · simp only [stepChannel, handleClose, if_pos hc, Prod.mk.injEq,
        Option.some.injEq] at h
      exact ⟨hmax ▸ hc.2, h.1.symm, by rw [← h.2, ← h.1]⟩
    · simp [stepChannel, handleClose, hc] at h
  · intro a
    rfl

/-- C5 witness: at the default options (maximum 5), seven consecutive
unexpected closes leave the counter at most 5, the sixth close schedules
nothing, the third close is delayed by 1000·2², and an open resets to 0. -/
theorem claim_C5_witness :
    runChannel defaultWebSocketOptions 0
      [ChannelEvent.unexpectedClose, ChannelEvent.unexpectedClose,
       ChannelEvent.unexpectedClose, ChannelEvent.unexpectedClose,
       ChannelEvent.unexpectedClose, ChannelEvent.unexpectedClose,
       ChannelEvent.unexpectedClose] ≤ 5 ∧
    stepChannel defaultWebSocketOptions 5 ChannelEvent.unexpectedClose = (5, none) ∧
    stepChannel defaultWebSocketOptions 7 ChannelEvent.openSuccess = (0, none) := by
  have h := claim_C5 defaultWebSocketOptions rfl
  exact ⟨h.1 _, h.2.1 5 (by decide), h.2.2.2 7⟩

/-- C8: when the socket is absent or not OPEN, `send` transmits nothing and
leaves the channel state unchanged, only signalling the warning; when
connected, it appends exactly one envelope `{type, payload, timestamp}` with
the current time as timestamp. -/
theorem claim_C8 (st : ChannelSendState) (type payload : String) (now : Int) :
    (st.readyState ≠ some WS_OPEN → send st type payload now = (st, true)) ∧
    (st.readyState = some WS_OPEN →
      send st type payload now =
        ({ st with sentFrames := st.sentFrames ++
            [{ type := type, payload := payload, timestamp := now }] }, false)) := by
  constructor
  · intro h
    simp [send, h]
  · intro h
    simp [send, h]

/-- C8 witness: a disconnected channel ignores the send, a connected one
appends the single timestamped envelope. -/
theorem claim_C8_witness :
    send { readyState := none, sentFrames := [] } "vote:submit" "5" 42 =
      ({ readyState := none, sentFrames := [] }, true) ∧
    send { readyState := some WS_OPEN, sentFrames := [] } "vote:submit" "5" 42 =
      ({ readyState := some WS_OPEN,
         sentFrames := [{ type := "vote:submit", payload := "5", timestamp := 42 }] },
       false) := by
  refine ⟨(claim_C8 { readyState := none, sentFrames := [] } "vote:submit" "5" 42).1
      (by simp), ?_⟩
  exact (claim_C8 { readyState := some WS_OPEN, sentFrames := [] } "vote:submit" "5" 42).2 rfl

/-! ### Consensus lemmas -/

theorem voters_sub (ps : List Participant) :
    ∀ p ∈ voters ps, p.isObserver = false ∧ p.selectedValue.isSome = true := by
  intro p hp
  simp only [voters, List.mem_filter, Bool.and_eq_true, Bool.not_eq_true'] at hp
  exact hp.2

/-- The three-participant list refuting the claimed consensus reading: two
voters agree on "5" while a third non-observer has not voted. -/
def consensusCex : List Participant :=
  [{ id := "a", name := "Alice", isObserver := false, selectedValue := some "5" },
   { id := "b", name := "Bob", isObserver := false, selectedValue := some "5" },
   { id := "c", name := "Cara", isObserver := false, selectedValue := none }]

/-- C6 counterexample: `hasConsensus` is true although a non-observer
participant has a null `selectedValue`, so consensus is not equivalent to
"all non-observer participants selected the identical non-null value with at
least 2 voters". -/
theorem claim_C6_counterexample :
    hasConsensus consensusCex = true ∧ ¬ claimedConsensus consensusCex := by
  constructor
  · rfl
  · rintro ⟨v, hall, -⟩
    have hc := hall
      { id := "c", name := "Cara", isObserver := false, selectedValue := none }
      (by simp [consensusCex]) rfl
    exact Option.noConfusion hc

/-- C6 (amended): `hasConsensus` is true iff at least 2 non-observer
participants have a non-null `selectedValue` and all non-observer
participants with a non-null `selectedValue` selected the identical value;
observer participants never affect it. -/
theorem claim_C6 (ps : List Participant) :
    (hasConsensus ps = true ↔
      2 ≤ (voters ps).length ∧
      ∃ v : String, ∀ p ∈ voters ps, p.selectedValue = some v) ∧
    (∀ q : Participant, q.isObserver = true →
      hasConsensus (q :: ps) = hasConsensus ps) := by
  constructor
  · cases hvs : voters ps with
    | nil =>
      simp [hasConsensus, hvs]
    | cons p0 rest =>
      by_cases hlen : (p0 :: rest).length < 2
      · simp only [hasConsensus, hvs, if_pos hlen]
        constructor
        · intro hfalse
          exact absurd hfalse (by simp)
        · rintro ⟨h2, -⟩
          omega
      · have hp0 : p0 ∈ voters ps := hvs ▸ List.mem_cons_self p0 rest
        obtain ⟨v0, hv0⟩ := Option.isSome_iff_exists.mp (voters_sub ps p0 hp0).2
        constructor
        · intro hall
          simp only [hasConsensus, hvs, if_neg hlen, List.head?_cons,
            List.all_eq_true] at hall
          refine ⟨by omega, v0, ?_⟩
          intro p hp
          have hbeq := hall p (hvs ▸ hp)
          rw [beq_iff_eq] at hbeq
          rw [hbeq, hv0]
        · rintro ⟨-, v, hv⟩
          simp only [hasConsensus, hvs, if_neg hlen, List.head?_cons,
            List.all_eq_true]
          intro p hp
          have h1 := hv p (hvs ▸ hp)
          have h0 := hv p0 (hvs ▸ List.mem_cons_self p0 rest)
          rw [beq_iff_eq, h1, h0]
  · intro q hq
    have hvq : voters (q :: ps) = voters ps := by
      simp [voters, hq]
    simp [hasConsensus, hvq]

/-- Two agreeing voters, used by the C6 witness. -/
def agreeingVoters : List Participant :=
  [{ id := "a", name := "Alice", isObserver := false, selectedValue := some "5" },
   { id := "b", name := "Bob", isObserver := false, selectedValue := some "5" }]

/-- C6 witness: appending a concrete observer leaves `hasConsensus` of the
two-agreeing-voter list unchanged. -/
theorem claim_C6_witness :
    hasConsensus
      ({ id := "o", name := "Olga", isObserver := true, selectedValue := none } ::
        agreeingVoters) = hasConsensus agreeingVoters :=
  (claim_C6 agreeingVoters).2
    { id := "o", name := "Olga", isObserver := true, selectedValue := none } rfl

/-! ### Handler-registry lemmas -/

theorem alSet_alSet {β : Type} (m : List (String × β)) (k : String) (v w : β) :
    alSet (alSet m k v) k w = alSet m k w := by
  induction m with
  | nil => simp [alSet]
  | cons p rest ih =>
    by_cases h : p.1 = k <;> simp [alSet, h, ih]

theorem alLookup_mem {β : Type} (m : List (String × β)) (k : String) (v : β)
    (h : alLookup m k = some v) : ∃ p ∈ m, p.2 = v := by
  induction m with
  | nil => simp [alLookup] at h
  | cons p rest ih =>
    by_cases hp : p.1 = k
    · simp only [alLookup, hp, if_true, Option.some.injEq] at h
      exact ⟨p, List.mem_cons_self p rest, h⟩
    · simp only [alLookup, hp, if_false] at h
      obtain ⟨q, hq, hqv⟩ := ih h
      exact ⟨q, List.mem_cons_of_mem p hq, hqv⟩

theorem mem_setAdd_self {H : Type} [DecidableEq H] (s : List H) (h : H) :
    h ∈ setAdd s h := by
  by_cases hm : h ∈ s <;> simp [setAdd, hm]

theorem setAdd_mem {H : Type} [DecidableEq H] (s : List H) (h : H)
    (hm : h ∈ s) : setAdd s h = s := by
  simp [setAdd, hm]

theorem emitEvent_onEvent_self {H : Type} [DecidableEq H]
    (m : List (String × List H)) (t : String) (h : H) :
    emitEvent (onEvent m t h) t = setAdd (emitEvent m t) h := by
  unfold onEvent emitEvent
  cases hl : alLookup m t with
  | none => simp [alLookup_alSet_self, setAdd]
  | some s => simp [alLookup_alSet_self]

theorem emitEvent_eq {H : Type} [DecidableEq H] (m : List (String × List H))
    (t : String) (hwf : handlersWf m) : (emitEvent m t).Nodup := by
  unfold emitEvent
  cases hl : alLookup m t with
  | none => simp
  | some s =>
    obtain ⟨p, hp, hpv⟩ := alLookup_mem m t s hl
    exact hpv ▸ hwf p hp

/-- C10: handler registration has set semantics: registering the same handler
twice for a type equals registering it once (and the handler fires exactly
once per matching message after registration); the unsubscribe closure
removes exactly that handler from exactly that type and is idempotent. -/
theorem claim_C10 {H : Type} [DecidableEq H] (m : List (String × List H))
    (t : String) (h : H) (hwf : handlersWf m) :
    onEvent (onEvent m t h) t h = onEvent m t h ∧
    (emitEvent (onEvent m t h) t).count h = 1 ∧
    emitEvent (unsubscribe m t h) t = (emitEvent m t).erase h ∧
    (∀ t', t' ≠ t → emitEvent (unsubscribe m t h) t' = emitEvent m t') ∧
    unsubscribe (unsubscribe m t h) t h = unsubscribe m t h := by
  refine ⟨?_, ?_, ?_, ?_, ?_⟩
  · unfold onEvent
    cases hl : alLookup m t with
    | none =>
      simp only [alLookup_alSet_self]
      rw [setAdd_mem _ h (mem_setAdd_self [] h), alSet_alSet]
    | some s =>
      simp only [alLookup_alSet_self]
      rw [setAdd_mem _ h (mem_setAdd_self s h), alSet_alSet]
  · rw [emitEvent_onEvent_self]
    have hnd : (emitEvent m t).Nodup := emitEvent_eq m t hwf
    by_cases hm : h ∈ emitEvent m t
    · rw [setAdd_mem _ h hm]
      exact List.count_eq_one_of_mem hnd hm
    · simp [setAdd, hm, List.count_eq_zero_of_not_mem hm]
  · unfold unsubscribe emitEvent
    cases hl : alLookup m t with
    | none => simp [hl]
    | some s => simp [hl, alLookup_alSet_self, setDelete]
  · intro t' hne
    unfold unsubscribe emitEvent
    cases hl : alLookup m t with
    | none => simp
    | some s => simp [alLookup_alSet_ne m t t' _ (Ne.symm hne)]
  · unfold unsubscribe
    cases hl : alLookup m t with
    | none => simp [hl]
    | some s =>
      obtain ⟨p, hp, hpv⟩ := alLookup_mem m t s hl
      have hnd : s.Nodup := hpv ▸ hwf p hp
      have hne : h ∉ s.erase h := fun hmem => (hnd.mem_erase_iff.mp hmem).1 rfl
      rw [alLookup_alSet_self]
      simp only [setDelete]
      rw [List.erase_of_not_mem hne]
      exact alSet_alSet m t _ _

/-- C10 witness: at an empty registry, double registration of handler `7` for
`"session:updated"` collapses to single registration. -/
theorem claim_C10_witness :
    onEvent (onEvent ([] : List (String × List Nat)) "session:updated" 7)
        "session:updated" 7 =
      onEvent ([] : List (String × List Nat)) "session:updated" 7 ∧
    (emitEvent (onEvent ([] : List (String × List Nat)) "session:updated" 7)
        "session:updated").count 7 = 1 := by
  have hw := claim_C10 ([] : List (String × List Nat)) "session:updated" 7
    (by intro p hp; simp at hp)
  exact ⟨hw.1, hw.2.1⟩

/-! ### Registry lookup after creation (C1) -/

theorem getSessionByJoinCode_of_canonical (st : ManagerState) (code : String)
    (hnorm : jsTrim (jsToUpperCase code) = code) :
    getSessionByJoinCode st code =
      match alLookup st.joinCodes code with
      | none => none
      | some sid => if sid = "" then none else alLookup st.sessions sid := by
  unfold getSessionByJoinCode
  rw [hnorm]

/-- C1: immediately after `createSession` succeeds, the returned join code
resolves to the returned session and `getSessionById` on the session's id
agrees (given that the generated session id is not the empty string, which
the JS falsy check would reject). -/
theorem claim_C1 (st : ManagerState) (name hostName hostId sessionId : String)
    (now : Int) (attempts : List (List Nat)) (st' : ManagerState)
    (session : Session) (host : Participant) (joinCode : String)
    (hid : sessionId ≠ "")
    (hc : createSession st name hostName hostId sessionId now attempts =
      some (st', session, host, joinCode)) :
    getSessionByJoinCode st' joinCode = some session ∧
    getSessionById st' session.id = some session := by
  simp only [createSession] at hc
  cases hg : generateJoinCode st.joinCodes attempts with
  | none =>
    rw [hg] at hc
    exact Option.noConfusion hc
  | some code =>
    rw [hg] at hc
    simp only [Option.some.injEq, Prod.mk.injEq] at hc
    obtain ⟨hst, hsess, hhost, hcode⟩ := hc
    obtain ⟨-, rs, hrs⟩ := generateJoinCode_spec st.joinCodes attempts code hg
    subst hcode
    subst hhost
    subst hsess
    subst hst
    have hsid : (Session.addParticipant
        { id := sessionId, name := name, hostId := hostId, participants := [],
          createdAt := now, updatedAt := now }
        { id := hostId, name := hostName, isObserver := false,
          selectedValue := none } now).1.id = sessionId := by
      simp [Session.addParticipant]
    refine ⟨?_, ?_⟩
    · rw [getSessionByJoinCode_of_canonical _ _ (hrs ▸ normalize_codeOfRands rs)]
      rw [alLookup_alSet_self]
      simp only [hsid, if_neg hid]
      exact alLookup_alSet_self _ _ _
    · unfold getSessionById
      exact alLookup_alSet_self _ _ _

/-- Concrete host record produced by the C1 witness run. -/
def wHost : Participant :=
  { id := "h1", name := "Alice", isObserver := false, selectedValue := none }

/-- Concrete session record produced by the C1 witness run. -/
def wSession : Session :=
  { id := "s1", name := "Sprint", hostId := "h1", participants := [wHost],
    createdAt := 100, updatedAt := 100 }

/-- Concrete registry state produced by the C1 witness run. -/
def wState : ManagerState :=
  { sessions := [("s1", wSession)], joinCodes := [("ABCDEF", "s1")],
    cleanupActive := true }

/-- C1 witness: a concrete `createSession` run after which both lookups
return the created session. -/
theorem claim_C1_witness :
    getSessionByJoinCode wState "ABCDEF" = some wSession ∧
    getSessionById wState wSession.id = some wSession := by
  refine claim_C1 initialState "Sprint" "Alice" "h1" "s1" 100 [[0, 1, 2, 3, 4, 5]]
    wState wSession wHost "ABCDEF" (by decide) ?_
  rfl

/-! ### Join-code invariant preservation (C2) -/

theorem eraseFirstCodeFor_sublist (m : List (String × String)) (sid : String) :
    (eraseFirstCodeFor m sid).Sublist m := by
  induction m with
  | nil => simp [eraseFirstCodeFor]
  | cons p rest ih =>
    obtain ⟨c, i⟩ := p
    by_cases h : i = sid
    · simpa [eraseFirstCodeFor, h] using List.sublist_cons_self (c, i) rest
    · simpa [eraseFirstCodeFor, h] using ih.cons₂ (c, i)

theorem deleteSession_joinCodes_sublist (st : ManagerState) (sid : String) :
    ((deleteSession st sid).1.joinCodes).Sublist st.joinCodes := by
  unfold deleteSession
  cases alLookup st.sessions sid with
  | none => simp
  | some s => simpa using eraseFirstCodeFor_sublist st.joinCodes sid

theorem cleanupIfEmpty_joinCodes_sublist (st : ManagerState) (sid : String) :
    ((cleanupIfEmpty st sid).joinCodes).Sublist st.joinCodes := by
  unfold cleanupIfEmpty
  cases alLookup st.sessions sid with
  | none => simp
  | some s =>
    dsimp only
    split
    · exact deleteSession_joinCodes_sublist st sid
    · exact List.Sublist.refl _

theorem leaveSession_joinCodes_sublist (cfg : CleanupConfig) (st : ManagerState)
    (sid pid : String) (now : Int) :
    ((leaveSession cfg st sid pid now).1.joinCodes).Sublist st.joinCodes := by
  unfold leaveSession
  cases alLookup st.sessions sid with
  | none => simp
  | some session =>
    dsimp only
    split
    · exact cleanupIfEmpty_joinCodes_sublist
        ⟨alSet st.sessions sid (session.removeParticipant pid now).1,
         st.joinCodes, st.cleanupActive⟩ sid
    · exact List.Sublist.refl _

theorem cleanupStep_joinCodes_sublist (cfg : CleanupConfig) (now : Int)
    (acc : ManagerState) (entry : String × Session) :
    ((cleanupStep cfg now acc entry).joinCodes).Sublist acc.joinCodes := by
  unfold cleanupStep
  split
  · exact deleteSession_joinCodes_sublist acc entry.1
  · split
    · exact deleteSession_joinCodes_sublist acc entry.1
    · exact List.Sublist.refl _

theorem foldl_cleanupStep_joinCodes_sublist (cfg : CleanupConfig) (now : Int) :
    ∀ (l : List (String × Session)) (acc : ManagerState),
      ((l.foldl (cleanupStep cfg now) acc).joinCodes).Sublist acc.joinCodes := by
  intro l
  induction l with
  | nil => intro acc; exact List.Sublist.refl _
  | cons e rest ih =>
    intro acc
    exact (ih (cleanupStep cfg now acc e)).trans
      (cleanupStep_joinCodes_sublist cfg now acc e)

theorem performCleanup_joinCodes_sublist (cfg : CleanupConfig) (now : Int)
    (st : ManagerState) :
    ((performCleanup cfg now st).joinCodes).Sublist st.joinCodes :=
  foldl_cleanupStep_joinCodes_sublist cfg now st.sessions st

theorem codesOk_mono (st st' : ManagerState)
    (hsub : (st'.joinCodes).Sublist st.joinCodes) (hok : codesOk st) :
    codesOk st' := by
  refine ⟨fun p hp => hok.1 p (hsub.mem hp), ?_⟩
  exact hok.2.sublist (hsub.map Prod.fst)

theorem codesOk_append_fresh (jcs : List (String × String)) (code sid : String)
    (h1 : ∀ p ∈ jcs, goodCode p.1) (h2 : (alKeys jcs).Nodup)
    (hgood : goodCode code) (hnm : code ∉ alKeys jcs) :
    (∀ p ∈ alSet jcs code sid, goodCode p.1) ∧
    (alKeys (alSet jcs code sid)).Nodup := by
  rw [alSet_eq_append jcs code sid hnm]
  constructor
  · intro p hp
    rcases List.mem_append.mp hp with hp | hp
    · exact h1 p hp
    · simp only [List.mem_singleton] at hp
      subst hp
      exact hgood
  · simp only [alKeys, List.map_append, List.map_cons, List.map_nil]
    rw [List.nodup_append]
    refine ⟨h2, List.nodup_singleton _, ?_⟩
    intro a ha hac
    simp only [List.mem_singleton] at hac
    exact hnm (hac ▸ ha)

theorem codesOk_createSession (st : ManagerState)
    (name hostName hostId sessionId : String) (now : Int)
    (attempts : List (List Nat)) (st' : ManagerState) (session : Session)
    (host : Participant) (joinCode : String) (hok : codesOk st)
    (hc : createSession st name hostName hostId sessionId now attempts =
      some (st', session, host, joinCode)) :
    codesOk st' ∧ goodCode joinCode := by
  simp only [createSession] at hc
  cases hg : generateJoinCode st.joinCodes attempts with
  | none =>
    rw [hg] at hc
    exact Option.noConfusion hc
  | some code =>
    rw [hg] at hc
    simp only [Option.some.injEq, Prod.mk.injEq] at hc
    obtain ⟨hst, -, -, hcode⟩ := hc
    obtain ⟨hnone, rs, hrs⟩ := generateJoinCode_spec st.joinCodes attempts code hg
    have hgood : goodCode code := hrs ▸ goodCode_codeOfRands rs
    have hnm : code ∉ alKeys st.joinCodes := (alLookup_eq_none_iff _ _).mp hnone
    subst hcode
    refine ⟨?_, hgood⟩
    rw [← hst]
    exact ⟨(codesOk_append_fresh st.joinCodes code _ hok.1 hok.2 hgood hnm).1,
      (codesOk_append_fresh st.joinCodes code _ hok.1 hok.2 hgood hnm).2⟩

/-- C2: join codes are well-formed and unique at every reachable registry
state: the fresh registry satisfies the invariant (well-formed codes, no two
live sessions share a code), every operation preserves it, the alphabet is
all uppercase-stable, and the configured length is 6. -/
theorem claim_C2 :
    codesOk initialState ∧
    (∀ st name hostName hostId sessionId now attempts st' session host joinCode,
      codesOk st →
      createSession st name hostName hostId sessionId now attempts =
        some (st', session, host, joinCode) →
      codesOk st' ∧ goodCode joinCode) ∧
    (∀ cfg st sid pid now, codesOk st →
      codesOk (leaveSession cfg st sid pid now).1) ∧
    (∀ st sid, codesOk st → codesOk (deleteSession st sid).1) ∧
    (∀ cfg now st, codesOk st → codesOk (performCleanup cfg now st)) ∧
    (∀ ch ∈ JOIN_CODE_CHARS.data, Char.toUpper ch = ch) ∧
    JOIN_CODE_LENGTH = 6 := by
  refine ⟨?_, ?_, ?_, ?_, ?_, ?_, rfl⟩
  · exact ⟨by simp [initialState], by simp [initialState, alKeys]⟩
  · intro st name hostName hostId sessionId now attempts st' session host joinCode
      hok hc
    exact codesOk_createSession st name hostName hostId sessionId now attempts
      st' session host joinCode hok hc
  · intro cfg st sid pid now hok
    exact codesOk_mono st _ (leaveSession_joinCodes_sublist cfg st sid pid now) hok
  · intro st sid hok
    exact codesOk_mono st _ (deleteSession_joinCodes_sublist st sid) hok
  · intro cfg now st hok
    exact codesOk_mono st _ (performCleanup_joinCodes_sublist cfg now st) hok
  · exact fun ch hch => (join_code_chars_props ch hch).1

/-- C2 witness: the invariant holds concretely after the witness creation
run, whose code `"ABCDEF"` is well-formed. -/
theorem claim_C2_witness : codesOk wState ∧ goodCode "ABCDEF" :=
  claim_C2.2.1 initialState "Sprint" "Alice" "h1" "s1" 100 [[0, 1, 2, 3, 4, 5]]
    wState wSession wHost "ABCDEF" claim_C2.1 rfl

/-! ### Cleanup sweep exactness (C4) -/

theorem alLookup_append_right {β : Type} (l1 l2 : List (String × β)) (k : String)
    (h : k ∉ alKeys l1) : alLookup (l1 ++ l2) k = alLookup l2 k := by
  induction l1 with
  | nil => simp
  | cons p rest ih =>
    have h' : ¬p.1 = k := by
      intro he
      exact h (by simp [alKeys, he])
    simp only [List.cons_append, alLookup, h', if_false]
    exact ih (fun hm => h (by simp [alKeys] at hm ⊢; exact Or.inr hm))

theorem alEraseKey_append_right {β : Type} (l1 l2 : List (String × β)) (k : String)
    (h : k ∉ alKeys l1) : alEraseKey (l1 ++ l2) k = l1 ++ alEraseKey l2 k := by
  induction l1 with
  | nil => simp
  | cons p rest ih =>
    have h' : ¬p.1 = k := by
      intro he
      exact h (by simp [alKeys, he])
    simp only [List.cons_append, alEraseKey, h', if_false, List.append_eq]
    rw [ih (fun hm => h (by simp [alKeys] at hm ⊢; exact Or.inr hm))]

theorem cleanupStep_eq (cfg : CleanupConfig) (now : Int) (acc : ManagerState)
    (e : String × Session) :
    cleanupStep cfg now acc e =
      if shouldDelete cfg now e.2 then (deleteSession acc e.1).1 else acc := by
  by_cases h1 : cfg.deleteWhenEmpty = true ∧ e.2.participants = []
  · simp [cleanupStep, shouldDelete, h1.1, h1.2]
  · by_cases h2 : cfg.maxInactivity < now - e.2.updatedAt
    · simp [cleanupStep, shouldDelete, h1, h2]
    · simp [cleanupStep, shouldDelete, h1, h2]

theorem cleanup_go (cfg : CleanupConfig) (now : Int) :
    ∀ (l pre : List (String × Session)) (acc : ManagerState),
      acc.sessions = pre ++ l →
      (alKeys (pre ++ l)).Nodup →
      (l.foldl (cleanupStep cfg now) acc).sessions =
        pre ++ l.filter (fun e => !shouldDelete cfg now e.2) := by
  intro l
  induction l with
  | nil =>
    intro pre acc hacc hnd
    simpa using hacc
  | cons e rest ih =>
    intro pre acc hacc hnd
    have hnotpre : e.1 ∉ alKeys pre := by
      have hsplit : (alKeys pre ++ e.1 :: alKeys rest).Nodup := by
        simpa [alKeys] using hnd
      obtain ⟨-, -, hdisj⟩ := List.nodup_append.mp hsplit
      exact fun hmem => hdisj hmem (List.mem_cons_self _ _)
    rw [List.foldl_cons, cleanupStep_eq]
    by_cases hdel : shouldDelete cfg now e.2 = true
    · rw [if_pos hdel]
      have hlook : alLookup acc.sessions e.1 = some e.2 := by
        rw [hacc, alLookup_append_right _ _ _ hnotpre]
        simp [alLookup]
      have hsessions : (deleteSession acc e.1).1.sessions = pre ++ rest := by
        simp only [deleteSession, hlook]
        rw [hacc, alEraseKey_append_right _ _ _ hnotpre]
        simp [alEraseKey]
      have hndsub : (alKeys (pre ++ rest)).Nodup := by
        refine hnd.sublist (List.Sublist.map Prod.fst ?_)
        exact (List.sublist_cons_self e rest).append_left pre
      rw [ih pre _ hsessions hndsub]
      simp [hdel]
    · rw [if_neg hdel]
      have hacc' : acc.sessions = (pre ++ [e]) ++ rest := by
        rw [hacc]
        simp
      have hnd' : (alKeys ((pre ++ [e]) ++ rest)).Nodup := by
        simpa using hnd
      rw [ih (pre ++ [e]) acc hacc' hnd']
      simp [hdel]

/-- C4: one reclamation sweep removes exactly the sessions that are empty
(while delete-when-empty is configured) or inactive beyond the threshold;
all other sessions survive in place, so deleting one session during the
sweep never prevents the remaining sessions from being evaluated. -/
theorem claim_C4 (cfg : CleanupConfig) (now : Int) (st : ManagerState)
    (hnd : (alKeys st.sessions).Nodup) :
    (performCleanup cfg now st).sessions =
      st.sessions.filter (fun e => !shouldDelete cfg now e.2) := by
  have h := cleanup_go cfg now st.sessions [] st (by simp) (by simpa using hnd)
  simpa [performCleanup] using h

/-- An empty, stale session used by the C4 witness. -/
def staleSession : Session :=
  { id := "s1", name := "Old", hostId := "h1", participants := [],
    createdAt := 0, updatedAt := 0 }

/-- A fresh, occupied session used by the C4 witness. -/
def freshSession : Session :=
  { id := "s2", name := "New", hostId := "h2", participants := [wHost],
    createdAt := 100, updatedAt := 100 }

/-- The two-session registry state swept in the C4 witness. -/
def c4State : ManagerState :=
  { sessions := [("s1", staleSession), ("s2", freshSession)],
    joinCodes := [("AAAAAA", "s1"), ("BBBBBB", "s2")], cleanupActive := true }

/-- C4 witness: a concrete sweep at time 150 deletes the empty stale session
and keeps the occupied fresh one. -/
theorem claim_C4_witness :
    (performCleanup DEFAULT_CLEANUP_CONFIG 150 c4State).sessions =
      c4State.sessions.filter
        (fun e => !shouldDelete DEFAULT_CLEANUP_CONFIG 150 e.2) :=
  claim_C4 DEFAULT_CLEANUP_CONFIG 150 c4State (by decide)

/-! ### Leave-last-participant deletion (C3) -/

theorem eraseFirst_lookup_none (jcs : List (String × String)) (sid code : String)
    (hfind : (jcs.find? (fun p => p.2 = sid)).map Prod.fst = some code)
    (hnd : (alKeys jcs).Nodup) :
    alLookup (eraseFirstCodeFor jcs sid) code = none := by
  induction jcs with
  | nil => simp at hfind
  | cons q rest ih =>
    obtain ⟨c, i⟩ := q
    have hndr : (alKeys rest).Nodup := ((by simpa [alKeys] using hnd :
      (c :: alKeys rest).Nodup)).of_cons
    have hcnm : c ∉ alKeys rest := by
      have := (by simpa [alKeys] using hnd : (c :: alKeys rest).Nodup)
      exact (List.nodup_cons.mp this).1
    by_cases hi : i = sid
    · have hc : code = c := by
        simp only [List.find?, hi, decide_True] at hfind
        simpa using hfind.symm
      subst hc
      simp only [eraseFirstCodeFor, hi, if_pos rfl]
      rw [alLookup_eq_none_iff]
      exact hcnm
    · have hfind' : (rest.find? (fun p => p.2 = sid)).map Prod.fst = some code := by
        simpa [List.find?, hi] using hfind
      have hcode_mem : code ∈ alKeys rest := by
        cases hf : rest.find? (fun p => p.2 = sid) with
        | none =>
          rw [hf] at hfind'
          simp at hfind'
        | some q' =>
          rw [hf] at hfind'
          simp at hfind'
          have hq'm := List.mem_of_find?_eq_some hf
          exact hfind' ▸ (by simpa [alKeys] using List.mem_map_of_mem Prod.fst hq'm)
      have hcne : ¬c = code := fun he => hcnm (he ▸ hcode_mem)
      simp only [eraseFirstCodeFor, hi, if_false, alLookup, hcne]
      exact ih hfind' hndr

/-- C3: when the delete-when-empty policy is on and `leaveSession` removes
the session's last remaining participant, the session is deleted
synchronously within that call: the id no longer resolves and the former
join code (stored canonically) no longer resolves either. Hypotheses: the
session exists with exactly one participant (the one leaving), the registry
maps have duplicate-free keys, and `code` is the session's stored code. -/
theorem claim_C3 (cfg : CleanupConfig) (st : ManagerState)
    (sessionId participantId : String) (now : Int) (session : Session)
    (p : Participant) (code : String)
    (hdwe : cfg.deleteWhenEmpty = true)
    (hses : alLookup st.sessions sessionId = some session)
    (hone : session.participants = [p])
    (hpid : p.id = participantId)
    (hnds : (alKeys st.sessions).Nodup)
    (hndc : (alKeys st.joinCodes).Nodup)
    (hcode : getJoinCode st sessionId = some code)
    (hcanon : jsTrim (jsToUpperCase code) = code) :
    (leaveSession cfg st sessionId participantId now).2 = true ∧
    getSessionById (leaveSession cfg st sessionId participantId now).1
      sessionId = none ∧
    getSessionByJoinCode (leaveSession cfg st sessionId participantId now).1
      code = none := by
  have hrm : session.removeParticipant participantId now =
      ({ session with participants := [], updatedAt := now }, true) := by
    simp [Session.removeParticipant, hone, hpid]
  have hls : leaveSession cfg st sessionId participantId now =
      (cleanupIfEmpty
        ⟨alSet st.sessions sessionId
          { session with participants := [], updatedAt := now },
         st.joinCodes, st.cleanupActive⟩ sessionId, true) := by
    simp only [leaveSession, hses, hrm, hdwe]
    simp
  have hlook1 : alLookup
      (alSet st.sessions sessionId
        { session with participants := [], updatedAt := now }) sessionId =
      some { session with participants := [], updatedAt := now } :=
    alLookup_alSet_self _ _ _
  have hcie : cleanupIfEmpty
      ⟨alSet st.sessions sessionId
        { session with participants := [], updatedAt := now },
       st.joinCodes, st.cleanupActive⟩ sessionId =
      (deleteSession
        ⟨alSet st.sessions sessionId
          { session with participants := [], updatedAt := now },
         st.joinCodes, st.cleanupActive⟩ sessionId).1 := by
    simp only [cleanupIfEmpty, hlook1]
    simp
  have hdels : (deleteSession
      ⟨alSet st.sessions sessionId
        { session with participants := [], updatedAt := now },
       st.joinCodes, st.cleanupActive⟩ sessionId).1.sessions =
      alEraseKey (alSet st.sessions sessionId
        { session with participants := [], updatedAt := now }) sessionId := by
    simp only [deleteSession, hlook1]
  have hdelc : (deleteSession
      ⟨alSet st.sessions sessionId
        { session with participants := [], updatedAt := now },
       st.joinCodes, st.cleanupActive⟩ sessionId).1.joinCodes =
      eraseFirstCodeFor st.joinCodes sessionId := by
    simp only [deleteSession, hlook1]
  have hmem : sessionId ∈ alKeys st.sessions := by
    rw [← alLookup_isSome_iff]
    simp [hses]
  have hkeys : alKeys (alSet st.sessions sessionId
      { session with participants := [], updatedAt := now }) =
      alKeys st.sessions :=
    alKeys_alSet_of_mem _ _ _ hmem
  refine ⟨by rw [hls], ?_, ?_⟩
  · rw [hls]
    unfold getSessionById
    simp only [hcie, hdels]
    exact alLookup_alEraseKey_self _ _ (hkeys ▸ hnds)
  · rw [hls]
    simp only [getSessionByJoinCode_of_canonical _ code hcanon, hcie, hdelc]
    rw [eraseFirst_lookup_none st.joinCodes sessionId code hcode hndc]

/-- C3 witness: in the concrete one-session registry produced by the C1
witness run, the host leaving deletes the session: id and code no longer
resolve. -/
theorem claim_C3_witness :
    (leaveSession DEFAULT_CLEANUP_CONFIG wState "s1" "h1" 200).2 = true ∧
    getSessionById (leaveSession DEFAULT_CLEANUP_CONFIG wState "s1" "h1" 200).1
      "s1" = none ∧
    getSessionByJoinCode
      (leaveSession DEFAULT_CLEANUP_CONFIG wState "s1" "h1" 200).1
      "ABCDEF" = none :=
  claim_C3 DEFAULT_CLEANUP_CONFIG wState "s1" "h1" 200 wSession wHost "ABCDEF"
    rfl rfl rfl rfl (by decide) (by decide) rfl (by decide)

/-! ### Idempotent deletion (C7) -/

theorem eraseFirst_no_more (jcs : List (String × String)) (sid : String)
    (hnd : (alKeys jcs).Nodup)
    (huniq : ∀ p ∈ jcs, ∀ q ∈ jcs, p.2 = sid → q.2 = sid → p = q) :
    ∀ p ∈ eraseFirstCodeFor jcs sid, p.2 ≠ sid := by
  induction jcs with
  | nil => simp [eraseFirstCodeFor]
  | cons q rest ih =>
    obtain ⟨c, i⟩ := q
    have hnd' : (c :: alKeys rest).Nodup := by simpa [alKeys] using hnd
    have hndr : (alKeys rest).Nodup := hnd'.of_cons
    have hcnm : c ∉ alKeys rest := (List.nodup_cons.mp hnd').1
    have huniq' : ∀ p ∈ rest, ∀ q ∈ rest, p.2 = sid → q.2 = sid → p = q :=
      fun p hp q hq => huniq p (List.mem_cons_of_mem _ hp) q
        (List.mem_cons_of_mem _ hq)
    by_cases hi : i = sid
    · intro p hp hps
      rw [eraseFirstCodeFor, if_pos hi] at hp
      have hpci : p = (c, i) :=
        huniq p (List.mem_cons_of_mem _ hp) (c, i) (List.mem_cons_self _ _)
          hps hi
      rw [hpci] at hp
      exact hcnm (by simpa [alKeys] using List.mem_map_of_mem Prod.fst hp)
    · intro p hp
      rw [eraseFirstCodeFor, if_neg hi] at hp
      rcases List.mem_cons.mp hp with h1 | h1
      · rw [h1]
        exact hi
      · exact ih hndr huniq' p h1

theorem getJoinCode_eq_none (st : ManagerState) (sid : String)
    (h : ∀ p ∈ st.joinCodes, p.2 ≠ sid) : getJoinCode st sid = none := by
  unfold getJoinCode
  rw [List.find?_eq_none.mpr]
  · rfl
  · intro p hp
    simpa using h p hp

/-- C7: `deleteSession` is idempotent on the registry state: a second call
with the same id returns false and changes nothing; a successful first call
removes the session id and releases its (unique) join code; and when the
deleted session was the last one the cleanup interval is stopped. -/
theorem claim_C7 (st : ManagerState) (sessionId : String)
    (hnds : (alKeys st.sessions).Nodup)
    (hndc : (alKeys st.joinCodes).Nodup)
    (huniq : ∀ p ∈ st.joinCodes, ∀ q ∈ st.joinCodes,
      p.2 = sessionId → q.2 = sessionId → p = q) :
    (deleteSession (deleteSession st sessionId).1 sessionId).1 =
      (deleteSession st sessionId).1 ∧
    (deleteSession (deleteSession st sessionId).1 sessionId).2 = false ∧
    ((deleteSession st sessionId).2 = true →
      getSessionById (deleteSession st sessionId).1 sessionId = none ∧
      getJoinCode (deleteSession st sessionId).1 sessionId = none) ∧
    ((deleteSession st sessionId).2 = true → st.sessions.length = 1 →
      (deleteSession st sessionId).1.cleanupActive = false) := by
  cases hl : alLookup st.sessions sessionId with
  | none =>
    have hid : deleteSession st sessionId = (st, false) := by
      simp only [deleteSession, hl]
    have hfst : (deleteSession st sessionId).1 = st := by rw [hid]
    have hsnd : (deleteSession st sessionId).2 = false := by rw [hid]
    refine ⟨?_, ?_, ?_, ?_⟩
    · rw [hfst, hfst]
    · rw [hfst, hsnd]
    · intro hf
      rw [hsnd] at hf
      exact Bool.noConfusion hf
    · intro hf
      rw [hsnd] at hf
      exact Bool.noConfusion hf
  | some s =>
    have h1 : deleteSession st sessionId =
        (⟨alEraseKey st.sessions sessionId,
          eraseFirstCodeFor st.joinCodes sessionId,
          if (alEraseKey st.sessions sessionId).length = 0 then false
          else st.cleanupActive⟩, true) := by
      simp only [deleteSession, hl]
    have hafter : alLookup (alEraseKey st.sessions sessionId) sessionId = none :=
      alLookup_alEraseKey_self _ _ hnds
    have h2 : deleteSession (deleteSession st sessionId).1 sessionId =
        ((deleteSession st sessionId).1, false) := by
      rw [h1]
      simp only [deleteSession, hafter]
    refine ⟨by rw [h2], by rw [h2], fun _ => ⟨?_, ?_⟩, fun _ hlen => ?_⟩
    · unfold getSessionById
      rw [h1]
      exact hafter
    · rw [h1]
      exact getJoinCode_eq_none _ sessionId
        (eraseFirst_no_more st.joinCodes sessionId hndc huniq)
    · rw [h1]
      have hz : (alEraseKey st.sessions sessionId).length = 0 := by
        have := alEraseKey_length st.sessions sessionId (by simp [hl])
        omega
      simp [hz]

/-- C7 witness: deleting the only session of the concrete one-session
registry twice equals deleting it once, the second call reports failure,
id and code no longer resolve, and the cleanup interval is stopped. -/
theorem claim_C7_witness :
    (deleteSession (deleteSession wState "s1").1 "s1").1 =
      (deleteSession wState "s1").1 ∧
    (deleteSession (deleteSession wState "s1").1 "s1").2 = false ∧
    ((deleteSession wState "s1").2 = true →
      getSessionById (deleteSession wState "s1").1 "s1" = none ∧
      getJoinCode (deleteSession wState "s1").1 "s1" = none) ∧
    ((deleteSession wState "s1").2 = true → wState.sessions.length = 1 →
      (deleteSession wState "s1").1.cleanupActive = false) :=
  claim_C7 wState "s1" (by decide) (by decide) (by decide)

/-! ### Registry bijection invariant (C9) -/

theorem mem_eraseFirst_of_ne (jcs : List (String × String)) (sid : String)
    (p : String × String) (hp : p ∈ jcs) (hne : p.2 ≠ sid) :
    p ∈ eraseFirstCodeFor jcs sid := by
  induction jcs with
  | nil => simp at hp
  | cons q rest ih =>
    obtain ⟨c, i⟩ := q
    by_cases hi : i = sid
    · rw [eraseFirstCodeFor, if_pos hi]
      rcases List.mem_cons.mp hp with h1 | h1
      · exact absurd (by rw [h1]; exact hi) hne
      · exact h1
    · rw [eraseFirstCodeFor, if_neg hi]
      rcases List.mem_cons.mp hp with h1 | h1
      · exact h1 ▸ List.mem_cons_self _ _
      · exact List.mem_cons_of_mem _ (ih h1)

theorem goodState_deleteSession (st : ManagerState) (sid : String)
    (hgs : goodState st) : goodState (deleteSession st sid).1 := by
  obtain ⟨hnds, hndc, hmap, huniq⟩ := hgs
  cases hl : alLookup st.sessions sid with
  | none =>
    simp only [deleteSession, hl]
    exact ⟨hnds, hndc, hmap, huniq⟩
  | some s =>
    simp only [deleteSession, hl]
    have hsidmem : sid ∈ alKeys st.sessions :=
      (alLookup_isSome_iff _ _).mp (by simp [hl])
    have huniq_sid : ∀ p ∈ st.joinCodes, ∀ q ∈ st.joinCodes,
        p.2 = sid → q.2 = sid → p = q := by
      intro p hp q hq hps hqs
      obtain ⟨c, hc, hcu⟩ := huniq sid hsidmem
      have hp1 : p.1 = c := hcu p.1 (by rw [← hps]; exact hp)
      have hq1 : q.1 = c := hcu q.1 (by rw [← hqs]; exact hq)
      have hpe : p = (p.1, p.2) := rfl
      have hqe : q = (q.1, q.2) := rfl
      rw [hpe, hqe, hp1, hq1, hps, hqs]
    refine ⟨?_, ?_, ?_, ?_⟩
    · exact hnds.sublist (alEraseKey_keys_sublist _ _)
    · exact hndc.sublist ((eraseFirstCodeFor_sublist _ _).map Prod.fst)
    · intro p hp
      have hpj : p ∈ st.joinCodes := (eraseFirstCodeFor_sublist _ _).mem hp
      have hpne : p.2 ≠ sid := eraseFirst_no_more st.joinCodes sid hndc huniq_sid p hp
      exact mem_keys_alEraseKey _ _ _ (hmap p hpj) hpne
    · intro sid' hsid'
      have hsub : sid' ∈ alKeys st.sessions :=
        (alEraseKey_keys_sublist st.sessions sid).subset hsid'
      have hne : sid' ≠ sid := by
        intro he
        exact not_mem_keys_alEraseKey_self st.sessions sid hnds (he ▸ hsid')
      obtain ⟨c, hc, hcu⟩ := huniq sid' hsub
      refine ⟨c, ?_, ?_⟩
      · exact mem_eraseFirst_of_ne st.joinCodes sid (c, sid') hc (by simpa using hne)
      · intro c' hc'
        exact hcu c' ((eraseFirstCodeFor_sublist _ _).mem hc')

theorem goodState_cleanupIfEmpty (st : ManagerState) (sid : String)
    (hgs : goodState st) : goodState (cleanupIfEmpty st sid) := by
  unfold cleanupIfEmpty
  cases alLookup st.sessions sid with
  | none => exact hgs
  | some s =>
    dsimp only
    split
    · exact goodState_deleteSession st sid hgs
    · exact hgs

theorem goodState_leaveSession (cfg : CleanupConfig) (st : ManagerState)
    (sid pid : String) (now : Int) (hgs : goodState st) :
    goodState (leaveSession cfg st sid pid now).1 := by
  unfold leaveSession
  cases hl : alLookup st.sessions sid with
  | none => exact hgs
  | some session =>
    dsimp only
    have hmem : sid ∈ alKeys st.sessions :=
      (alLookup_isSome_iff _ _).mp (by simp [hl])
    have hkeys := alKeys_alSet_of_mem st.sessions sid
      (session.removeParticipant pid now).1 hmem
    have hgs1 : goodState
        ⟨alSet st.sessions sid (session.removeParticipant pid now).1,
         st.joinCodes, st.cleanupActive⟩ := by
      refine ⟨?_, hgs.2.1, ?_, ?_⟩
      · dsimp only
        rw [hkeys]
        exact hgs.1
      · intro p hp
        dsimp only at hp ⊢
        rw [hkeys]
        exact hgs.2.2.1 p hp
      · intro sid' hsid'
        dsimp only at hsid'
        rw [hkeys] at hsid'
        exact hgs.2.2.2 sid' hsid'
    split
    · exact goodState_cleanupIfEmpty _ sid hgs1
    · exact hgs1

theorem goodState_cleanupStep (cfg : CleanupConfig) (now : Int)
    (acc : ManagerState) (e : String × Session) (hgs : goodState acc) :
    goodState (cleanupStep cfg now acc e) := by
  rw [cleanupStep_eq]
  split
  · exact goodState_deleteSession acc e.1 hgs
  · exact hgs

theorem goodState_performCleanup (cfg : CleanupConfig) (now : Int)
    (st : ManagerState) (hgs : goodState st) :
    goodState (performCleanup cfg now st) := by
  unfold performCleanup
  generalize st.sessions = l
  induction l generalizing st with
  | nil => exact hgs
  | cons e rest ih =>
    rw [List.foldl_cons]
    exact ih (cleanupStep cfg now st e) (goodState_cleanupStep cfg now st e hgs)

theorem goodState_append_fresh (st : ManagerState) (sid : String) (s : Session)
    (code : String) (hgs : goodState st)
    (hfresh : sid ∉ alKeys st.sessions)
    (hcfresh : code ∉ alKeys st.joinCodes) :
    goodState ⟨st.sessions ++ [(sid, s)], st.joinCodes ++ [(code, sid)], true⟩ := by
  obtain ⟨hnds, hndc, hmap, huniq⟩ := hgs
  have hkeys : alKeys (st.sessions ++ [(sid, s)]) = alKeys st.sessions ++ [sid] := by
    simp [alKeys]
  have hkeyc : alKeys (st.joinCodes ++ [(code, sid)]) =
      alKeys st.joinCodes ++ [code] := by
    simp [alKeys]
  refine ⟨?_, ?_, ?_, ?_⟩
  · dsimp only
    rw [hkeys, List.nodup_append]
    refine ⟨hnds, List.nodup_singleton _, ?_⟩
    intro a ha hac
    simp only [List.mem_singleton] at hac
    exact hfresh (hac ▸ ha)
  · dsimp only
    rw [hkeyc, List.nodup_append]
    refine ⟨hndc, List.nodup_singleton _, ?_⟩
    intro a ha hac
    simp only [List.mem_singleton] at hac
    exact hcfresh (hac ▸ ha)
  · intro p hp
    dsimp only at hp ⊢
    rw [hkeys]
    rcases List.mem_append.mp hp with hp | hp
    · exact List.mem_append_left _ (hmap p hp)
    · simp only [List.mem_singleton] at hp
      subst hp
      simp
  · intro sid' hsid'
    dsimp only at hsid' ⊢
    rw [hkeys] at hsid'
    rcases List.mem_append.mp hsid' with hs | hs
    · obtain ⟨c, hc, hcu⟩ := huniq sid' hs
      refine ⟨c, List.mem_append_left _ hc, ?_⟩
      intro c' hc'
      rcases List.mem_append.mp hc' with hc' | hc'
      · exact hcu c' hc'
      · simp only [List.mem_singleton, Prod.mk.injEq] at hc'
        exact absurd (hc'.2 ▸ hs) hfresh
    · simp only [List.mem_singleton] at hs
      subst hs
      refine ⟨code, List.mem_append_right _ (by simp), ?_⟩
      intro c' hc'
      rcases List.mem_append.mp hc' with hc' | hc'
      · exact absurd (hmap (c', sid') hc') hfresh
      · simp only [List.mem_singleton, Prod.mk.injEq] at hc'
        exact hc'.1

theorem goodState_createSession (st : ManagerState)
    (name hostName hostId sessionId : String) (now : Int)
    (attempts : List (List Nat)) (st' : ManagerState) (session : Session)
    (host : Participant) (joinCode : String) (hgs : goodState st)
    (hfresh : sessionId ∉ alKeys st.sessions)
    (hc : createSession st name hostName hostId sessionId now attempts =
      some (st', session, host, joinCode)) :
    goodState st' := by
  simp only [createSession] at hc
  cases hg : generateJoinCode st.joinCodes attempts with
  | none =>
    rw [hg] at hc
    exact Option.noConfusion hc
  | some code =>
    rw [hg] at hc
    simp only [Option.some.injEq, Prod.mk.injEq] at hc
    obtain ⟨hst, -, -, -⟩ := hc
    obtain ⟨hnone, -, -⟩ := generateJoinCode_spec st.joinCodes attempts code hg
    have hcfresh : code ∉ alKeys st.joinCodes := (alLookup_eq_none_iff _ _).mp hnone
    have hsid : (Session.addParticipant
        { id := sessionId, name := name, hostId := hostId, participants := [],
          createdAt := now, updatedAt := now }
        { id := hostId, name := hostName, isObserver := false,
          selectedValue := none } now).1.id = sessionId := by
      simp [Session.addParticipant]
    rw [← hst]
    rw [hsid] at *
    have h1 := goodState_append_fresh st sessionId
      ((Session.addParticipant
        { id := sessionId, name := name, hostId := hostId, participants := [],
          createdAt := now, updatedAt := now }
        { id := hostId, name := hostName, isObserver := false,
          selectedValue := none } now).1) code hgs hfresh hcfresh
    rw [alSet_eq_append st.sessions sessionId _ hfresh,
      alSet_eq_append st.joinCodes code sessionId hcfresh]
    exact h1

theorem getJoinCode_unique (st : ManagerState) (hgs : goodState st)
    (sid c : String) (hc : (c, sid) ∈ st.joinCodes) :
    getJoinCode st sid = some c := by
  obtain ⟨-, -, hmap, huniq⟩ := hgs
  have hsidm : sid ∈ alKeys st.sessions := hmap (c, sid) hc
  obtain ⟨c0, hc0, hcu⟩ := huniq sid hsidm
  have hcc0 : c = c0 := hcu c hc
  unfold getJoinCode
  cases hf : st.joinCodes.find? (fun p => p.2 = sid) with
  | none =>
    exfalso
    have := List.find?_eq_none.mp hf (c, sid) hc
    simp at this
  | some q =>
    have hqm := List.mem_of_find?_eq_some hf
    have hqp : q.2 = sid := by simpa using List.find?_some hf
    have hq1 : q.1 = c0 := hcu q.1 (by rw [← hqp]; exact hqm)
    simp [hq1, hcc0]

theorem getJoinCode_not_found (st : ManagerState) (hgs : goodState st)
    (sid : String) (hnm : sid ∉ alKeys st.sessions) : getJoinCode st sid = none := by
  apply getJoinCode_eq_none
  intro p hp hps
  exact hnm (hps ▸ hgs.2.2.1 p hp)

/-- C9: the registry maintains a bijection between live join codes and live
session ids: it holds at the fresh registry, is preserved by `createSession`
(with a fresh generated session id), `leaveSession`, `deleteSession` and the
sweep, and under it `getJoinCode` returns the unique code of a live id and
none for an id not in the registry. -/
theorem claim_C9 :
    goodState initialState ∧
    (∀ st name hostName hostId sessionId now attempts st' session host joinCode,
      goodState st → sessionId ∉ alKeys st.sessions →
      createSession st name hostName hostId sessionId now attempts =
        some (st', session, host, joinCode) →
      goodState st') ∧
    (∀ cfg st sid pid now, goodState st →
      goodState (leaveSession cfg st sid pid now).1) ∧
    (∀ st sid, goodState st → goodState (deleteSession st sid).1) ∧
    (∀ cfg now st, goodState st → goodState (performCleanup cfg now st)) ∧
    (∀ st sid c, goodState st → (c, sid) ∈ st.joinCodes →
      getJoinCode st sid = some c) ∧
    (∀ st sid, goodState st → sid ∉ alKeys st.sessions →
      getJoinCode st sid = none) := by
  refine ⟨?_, ?_, ?_, ?_, ?_, ?_, ?_⟩
  · exact ⟨by simp [initialState, alKeys], by simp [initialState, alKeys],
      by simp [initialState], by simp [initialState, alKeys]⟩
  · intro st name hostName hostId sessionId now attempts st' session host
      joinCode hgs hfresh hc
    exact goodState_createSession st name hostName hostId sessionId now attempts
      st' session host joinCode hgs hfresh hc
  · intro cfg st sid pid now hgs
    exact goodState_leaveSession cfg st sid pid now hgs
  · intro st sid hgs
    exact goodState_deleteSession st sid hgs
  · intro cfg now st hgs
    exact goodState_performCleanup cfg now st hgs
  · intro st sid c hgs hc
    exact getJoinCode_unique st hgs sid c hc
  · intro st sid hgs hnm
    exact getJoinCode_not_found st hgs sid hnm

/-- C9 witness: the bijection invariant carries from the fresh registry to
the concrete one-session state of the witness run, where `getJoinCode`
returns its unique code. -/
theorem claim_C9_witness :
    goodState wState ∧ getJoinCode wState "s1" = some "ABCDEF" := by
  have hgs : goodState wState :=
    claim_C9.2.1 initialState "Sprint" "Alice" "h1" "s1" 100 [[0, 1, 2, 3, 4, 5]]
      wState wSession wHost "ABCDEF" claim_C9.1 (by simp [initialState, alKeys]) rfl
  exact ⟨hgs, claim_C9.2.2.2.2.2.1 wState "s1" "ABCDEF" hgs (by simp [wState])⟩

end PlanningPoker
